import Mathlib

/-!
Shallow embedding of the blackjack card counter's decision engine
(`src/api/decision_engine.py`), true-count computation (`src/api/server.py`)
and Kelly bet sizing (`src/api/server.py`), together with proofs of the
specification claims about them.

Python `random.choice` draws are modelled by explicit choice streams
(`Nat → Nat`): a stream value `c` at a deck of length `len` selects index
`c % len`, so every possible sequence of random draws corresponds to some
stream, and universally quantified theorems cover all RNG behaviours.
Python integers are `Int`/`Nat`, Python floats are `ℚ` (exact arithmetic;
`round` is modelled as round-half-to-even, as documented for Python).
-/

namespace Blackjack

/-- The thirteen card ranks accepted by the engine (keys of `card_values`
and `standard_deck` in `decision_engine.py`). -/
inductive Rank where
  | A | r2 | r3 | r4 | r5 | r6 | r7 | r8 | r9 | r10 | J | Q | K
deriving DecidableEq, Repr, Fintype

open Rank

/-- Ranks in the dictionary insertion order of `card_values` /
`standard_deck`. -/
def allRanks : List Rank := [A, r2, r3, r4, r5, r6, r7, r8, r9, r10, J, Q, K]

/-- `card_values[card][0]`: the first listed value of a rank
(1 for an Ace, 10 for J/Q/K, face value otherwise). -/
def cardValue0 : Rank → Nat
  | A => 1
  | r2 => 2
  | r3 => 3
  | r4 => 4
  | r5 => 5
  | r6 => 6
  | r7 => 7
  | r8 => 8
  | r9 => 9
  | r10 => 10
  | J => 10
  | Q => 10
  | K => 10

/-- `standard_deck`: four copies of each rank per deck. -/
def standard_deck : Rank → Nat := fun _ => 4

/-- The per-card accumulation step of `calculate_hand_value`: an Ace adds
11 and increments the ace counter, any other rank adds
`card_values[card][0]`. State is `(total, aces)`. -/
def handStep : Nat × Nat → Rank → Nat × Nat
  | (total, aces), A => (total + 11, aces + 1)
  | (total, aces), c => (total + cardValue0 c, aces)

/-- The `while total > 21 and aces > 0: total -= 10; aces -= 1` adjustment
loop of `calculate_hand_value`, written by structural recursion on the ace
counter (one iteration consumes one ace). -/
def adjustAces : Nat → Nat → Nat × Nat
  | total, 0 => (total, 0)
  | total, a + 1 => if 21 < total then adjustAces (total - 10) a else (total, a + 1)

/-- `BlackjackDecisionEngine.calculate_hand_value`: returns the pair
`(hand_value, is_soft)`. -/
def calculate_hand_value (cards : List Rank) : Nat × Bool :=
  let raw := cards.foldl handStep (0, 0)
  let adj := adjustAces raw.1 raw.2
  (adj.1, decide (0 < adj.2) && decide (adj.1 ≤ 21))

/-- Modelled from the claim's words, independently of the source shape:
the adjustment loop as a fuel-indexed `while total > 21 and aces > 0`. -/
def whileAdjust : Nat → Nat × Nat → Nat × Nat
  | 0, s => s
  | fuel + 1, (total, aces) =>
      if 21 < total ∧ 0 < aces then whileAdjust fuel (total - 10, aces - 1)
      else (total, aces)

/-- Modelled from the claim's words: total starts at 0 with aces = 0, each
Ace adds 11 and bumps aces, others add their fixed value; then the while
loop drops the total by 10 per excess ace; soft iff aces remain and the
total is at most 21. -/
def specEvaluate (cards : List Rank) : Nat × Bool :=
  let raw := cards.foldl handStep (0, 0)
  let adj := whileAdjust raw.2 (raw.1, raw.2)
  (adj.1, decide (0 < adj.2 ∧ adj.1 ≤ 21))

/-- One step of `get_remaining_cards`: for each seen card, decrement its
remaining count only if the count is still positive (counts stay in `ℤ`
as Python ints; the positivity guard is what prevents negatives). -/
def consumeCard (m : Rank → ℤ) (c : Rank) : Rank → ℤ :=
  fun r => if r = c ∧ 0 < m c then m c - 1 else m r

/-- `BlackjackDecisionEngine.get_remaining_cards` for `num_decks = d`:
start from `standard_deck` scaled by the deck count, then consume each
seen card under the positivity guard. -/
def get_remaining_cards (d : Nat) (seen : List Rank) : Rank → ℤ :=
  seen.foldl consumeCard (fun r => (standard_deck r : ℤ) * d)

/-- Flattening a remaining-card map into a concrete deck list, as the
`deck.extend([card] * count)` loops do (Python list-extension with a
non-positive count adds nothing, matching `Int.toNat`). Iteration follows
dict insertion order, i.e. `allRanks`. -/
def flattenDeck (m : Rank → ℤ) : List Rank :=
  allRanks.foldr (fun r acc => List.replicate (m r).toNat r ++ acc) []

/-- One random draw: `random.choice(deck)` followed by
`deck.remove(next_card)` (removal of the first occurrence of the chosen
rank). The stream value picks the choice index modulo the deck size. -/
def drawCard (c : Nat) (deck : List Rank) (h : deck ≠ []) : Rank × List Rank :=
  let i := c % deck.length
  let card := deck.get ⟨i, Nat.mod_lt c (List.length_pos.mpr h)⟩
  (card, deck.erase card)

/-- The `while dealer_value < 17 or (dealer_value == 17 and is_soft)` loop
of `simulate_dealer_hand`: draw, re-evaluate, stop on bust; also stop when
the deck empties. Returns the final value together with the deck left
over. `k` indexes into the choice stream. Written with a fuel parameter
for structural recursion; each iteration removes one card from the deck,
so fuel `deck.length` (as used by `dealerLoop` below) never runs out. -/
def dealerLoopF : Nat → (Nat → Nat) → Nat → List Rank → List Rank → Nat × List Rank
  | 0, _, _, hand, deck => ((calculate_hand_value hand).1, deck)
  | fuel + 1, cs, k, hand, deck =>
      let v := (calculate_hand_value hand).1
      let soft := (calculate_hand_value hand).2
      if v < 17 ∨ (v = 17 ∧ soft) then
        if hdeck : deck = [] then (v, deck)
        else
          let d := drawCard (cs k) deck hdeck
          let hand2 := hand ++ [d.1]
          let v2 := (calculate_hand_value hand2).1
          if 21 < v2 then (v2, d.2)
          else dealerLoopF fuel cs (k + 1) hand2 d.2
      else (v, deck)

/-- The dealer hit loop with exactly enough fuel for its deck. -/
def dealerLoop (cs : Nat → Nat) (k : Nat) (hand deck : List Rank) : Nat × List Rank :=
  dealerLoopF deck.length cs k hand deck

/-- `BlackjackDecisionEngine.simulate_dealer_hand`: start from the upcard,
flatten the remaining-card pool, return the upcard value alone on an empty
pool, otherwise run the hit loop. -/
def simulate_dealer_hand (cs : Nat → Nat) (dealer_upcard : Rank)
    (remaining_cards : Rank → ℤ) : Nat :=
  let deck := flattenDeck remaining_cards
  if deck = [] then (calculate_hand_value [dealer_upcard]).1
  else (dealerLoop cs 0 [dealer_upcard] deck).1

/-- The four candidate player actions of the decision engine. -/
inductive Action where
  | hit | stand | double | split
deriving DecidableEq, Repr

/-- The `while True` hit loop of `simulate_player_action` for
`action == "hit"`: stop at 21 or more, stop on an empty deck, otherwise
draw; after the draw, stop if the value seen *before* the draw was already
17 or more. Fuel-structured; each iteration removes one card. -/
def hitLoopF : Nat → (Nat → Nat) → Nat → List Rank → List Rank → List Rank × List Rank
  | 0, _, _, hand, deck => (hand, deck)
  | fuel + 1, pcs, k, hand, deck =>
      let v := (calculate_hand_value hand).1
      if 21 ≤ v then (hand, deck)
      else if hdeck : deck = [] then (hand, deck)
      else
        let d := drawCard (pcs k) deck hdeck
        let hand2 := hand ++ [d.1]
        if 17 ≤ v then (hand2, d.2)
        else hitLoopF fuel pcs (k + 1) hand2 d.2

/-- The action-specific phase of one simulation trial: returns the player
hand, the deck left after the player's draws, and the bet multiplier.
`hit` runs the hit loop; `double` doubles the multiplier and draws one
card if any is left; `split` replaces the hand only when the two cards are
the identical rank (Python `player_cards[0] == player_cards[1]`); `stand`
does nothing. -/
def actionPhase (pcs : Nat → Nat) (cards : List Rank) (act : Action)
    (deck : List Rank) : List Rank × List Rank × ℚ :=
  match act with
  | Action.hit =>
      let r := hitLoopF deck.length pcs 0 cards deck
      (r.1, r.2, 1)
  | Action.stand => (cards, deck, 1)
  | Action.double =>
      if hdeck : deck = [] then (cards, deck, 2)
      else
        let d := drawCard (pcs 0) deck hdeck
        (cards ++ [d.1], d.2, 2)
  | Action.split =>
      match cards with
      | [c0, c1] =>
          if c0 = c1 then
            if hdeck : deck = [] then ([c0], deck, 1)
            else
              let d := drawCard (pcs 0) deck hdeck
              ([c0, d.1], d.2, 1)
          else (cards, deck, 1)
      | _ => (cards, deck, 1)

/-- The tail of one simulation trial: score a player bust at minus the
multiplier; otherwise run the dealer on the pool of ranks still present in
the post-draw deck, at their *original* counts (`deck_copy` is never
mutated in the source, so the comprehension keeps `remaining_cards[k]`
for every rank `k` still in `deck`), and settle win/loss/push. -/
def finishTrial (dcs : Nat → Nat) (hand deck : List Rank) (mult : ℚ)
    (dealer_upcard : Rank) (remaining_cards : Rank → ℤ) : ℚ :=
  let v := (calculate_hand_value hand).1
  if 21 < v then -mult
  else
    let pool : Rank → ℤ := fun r => if r ∈ deck then remaining_cards r else 0
    let dv := simulate_dealer_hand dcs dealer_upcard pool
    if 21 < dv then mult
    else if dv < v then mult
    else if v < dv then -mult
    else 0

/-- One iteration of the `for _ in range(self.simulation_rounds)` loop of
`simulate_player_action`: `none` when the trial is skipped because the
flattened deck is empty at the start (`if not deck: continue`); otherwise
the trial's net return. The `except (IndexError, KeyError)` handler of the
source is unreachable here: every draw is guarded by a non-empty-deck
check and every lookup is total over `Rank`. -/
def playerTrial (pcs dcs : Nat → Nat) (player_cards : List Rank) (act : Action)
    (dealer_upcard : Rank) (remaining_cards : Rank → ℤ) : Option ℚ :=
  let deck := flattenDeck remaining_cards
  if deck = [] then none
  else
    let ph := actionPhase pcs player_cards act deck
    some (finishTrial dcs ph.1 ph.2.1 ph.2.2 dealer_upcard remaining_cards)

/-- The `wins` / `total_simulations` accumulators of
`simulate_player_action`, folded over the per-trial outcomes. -/
def simLoop (outs : List (Option ℚ)) : ℚ × Nat :=
  outs.foldl
    (fun acc o => match o with
      | none => acc
      | some x => (acc.1 + x, acc.2 + 1))
    (0, 0)

/-- `BlackjackDecisionEngine.simulate_player_action` for
`simulation_rounds = rounds`: trial `t` draws through the player stream
`pcss t` and the dealer stream `dcss t`; the result is
`wins / max(total_simulations, 1)`. -/
def simulate_player_action (pcss dcss : Nat → Nat → Nat) (rounds : Nat)
    (player_cards : List Rank) (act : Action) (dealer_upcard : Rank)
    (remaining_cards : Rank → ℤ) : ℚ :=
  let outs := (List.range rounds).map fun t =>
    playerTrial (pcss t) (dcss t) player_cards act dealer_upcard remaining_cards
  let acc := simLoop outs
  acc.1 / ((max acc.2 1 : ℕ) : ℚ)

/-- The net returns of the completed (non-skipped) trials. -/
def completedTrials (pcss dcss : Nat → Nat → Nat) (rounds : Nat)
    (player_cards : List Rank) (act : Action) (dealer_upcard : Rank)
    (remaining_cards : Rank → ℤ) : List ℚ :=
  ((List.range rounds).map fun t =>
    playerTrial (pcss t) (dcss t) player_cards act dealer_upcard remaining_cards).filterMap id

/-- The `actions` list built by `calculate_expected_values`: hit and stand
always, double on a two-card hand, split on a two-card hand whose ranks
have equal first value (`card_values[c][0]`, so an Ace compares as 1 and
all of 10/J/Q/K compare as 10); a 21 total collapses the list to stand
only. -/
def legalActions (cards : List Rank) (pv : Nat) : List Action :=
  let base := [Action.hit, Action.stand] ++
    (if cards.length = 2 then [Action.double] else []) ++
    (match cards with
      | [c0, c1] => if cardValue0 c0 = cardValue0 c1 then [Action.split] else []
      | _ => [])
  if pv = 21 then [Action.stand] else base

/-- `BlackjackDecisionEngine.calculate_expected_values`, generic in the
action simulator (the real engine instantiates `sim` with
`simulate_player_action`; genericity lets theorems express that a branch
performs no simulation at all). A busted hand short-circuits to
`[(stand, -1.0)]`; otherwise every legal action's simulated EV gets the
uniform count adjustment `true_count * 0.005`. The association list keeps
the Python dict's insertion order. -/
def calculate_expected_values_gen
    (sim : List Rank → Action → Rank → (Rank → ℤ) → ℚ) (d : Nat)
    (player_cards : List Rank) (dealer_upcard : Rank) (seen_cards : List Rank)
    (true_count : ℚ) : List (Action × ℚ) :=
  let remaining := get_remaining_cards d seen_cards
  let pv := (calculate_hand_value player_cards).1
  if 21 < pv then [(Action.stand, -1)]
  else
    (legalActions player_cards pv).map fun a =>
      (a, sim player_cards a dealer_upcard remaining + true_count * (5 / 1000))

/-- `calculate_expected_values` with the engine's Monte-Carlo simulator. -/
def calculate_expected_values (pcss dcss : Nat → Nat → Nat) (rounds d : Nat)
    (player_cards : List Rank) (dealer_upcard : Rank) (seen_cards : List Rank)
    (true_count : ℚ) : List (Action × ℚ) :=
  calculate_expected_values_gen
    (fun c a u rem => simulate_player_action pcss dcss rounds c a u rem)
    d player_cards dealer_upcard seen_cards true_count

/-- `max(expected_values.items(), key=lambda x: x[1])`: the first pair
attaining the maximal EV (Python `max` replaces the incumbent only on a
strictly greater key). The empty case is unreachable in the engine. -/
def maxByEV : List (Action × ℚ) → Action × ℚ
  | [] => (Action.stand, 0)
  | p :: ps => ps.foldl (fun best x => if best.2 < x.2 then x else best) p

/-- Python `max(values, default=dflt)` over a list of numbers. -/
def listMaxD : List ℚ → ℚ → ℚ
  | [], dflt => dflt
  | x :: xs, _ => xs.foldl max x

/-- The action field of the decision: the argmax key. -/
def decisionAction (evs : List (Action × ℚ)) : Action :=
  (maxByEV evs).1

/-- The confidence field: `abs` of the optimal EV minus the best EV among
the other actions, defaulting to the optimal EV itself (confidence 0)
when no other action exists. -/
def decisionConfidence (evs : List (Action × ℚ)) : ℚ :=
  let opt := maxByEV evs
  |opt.2 - listMaxD ((evs.filter fun p => p.1 != opt.1).map Prod.snd) opt.2|

/-- `expected_values[action]` lookup in the association list. -/
def lookupEV (evs : List (Action × ℚ)) (a : Action) : ℚ :=
  match evs.find? fun p => p.1 == a with
  | some p => p.2
  | none => 0

/-- Round half to even, the tie rule of Python `round` and `format`. -/
def roundHalfEven (q : ℚ) : ℤ :=
  let f := ⌊q⌋
  let r := q - f
  if r < 1 / 2 then f
  else if 1 / 2 < r then f + 1
  else if f % 2 = 0 then f else f + 1

/-- Python `round(q, digits)`: scale, round half to even, scale back. -/
def roundTo (digits : Nat) (q : ℚ) : ℚ :=
  (roundHalfEven (q * ((10 : ℚ) ^ digits)) : ℚ) / ((10 : ℚ) ^ digits)

/-- Fixed-point decimal rendering of a rational, standing in for Python
float formatting such as `f-strings` with `.3f` (exact decimal idealization
of the binary-float original). -/
def fmtQ (digits : Nat) (q : ℚ) : String :=
  let scale : ℤ := (10 : ℤ) ^ digits
  let n : ℤ := roundHalfEven (q * (scale : ℚ))
  let sign := if n < 0 then "-" else ""
  let m := n.natAbs
  let ip := m / (10 : ℕ) ^ digits
  let fp := m % (10 : ℕ) ^ digits
  let fpStr := toString fp
  let pad := String.mk (List.replicate (digits - fpStr.length) '0')
  sign ++ toString ip ++ "." ++ pad ++ fpStr

/-- `action.upper()` on the four action strings. -/
def actionUpper : Action → String
  | Action.hit => "HIT"
  | Action.stand => "STAND"
  | Action.double => "DOUBLE"
  | Action.split => "SPLIT"

/-- The action-specific closing sentence of `_generate_reasoning`. -/
def actionSentence : Action → String
  | Action.hit => "Mathematical analysis suggests taking another card maximizes expected return."
  | Action.stand => "Standing preserves the best expected value given current probabilities."
  | Action.double => "Doubling down leverages favorable odds with increased bet size."
  | Action.split => "Splitting creates two potentially winning hands with positive expectation."

/-- `BlackjackDecisionEngine._generate_reasoning`: the templated
natural-language rationale. -/
def generate_reasoning (action : Action) (expected_values : List (Action × ℚ))
    (player_value : Nat) (is_soft : Bool) (dealer_value : Nat)
    (true_count : ℚ) : String :=
  let hand_type := if is_soft then "soft" else "hard"
  let ev := lookupEV expected_values action
  let s1 := "With " ++ hand_type ++ " " ++ toString player_value ++ " vs dealer " ++
    toString dealer_value ++ ", "
  let s2 := actionUpper action ++ " has the highest EV of " ++ fmtQ 3 ev ++ ". "
  let s3 :=
    if 1 < true_count then
      "Positive count (+" ++ fmtQ 1 true_count ++ ") favors aggressive play. "
    else if true_count < -1 then
      "Negative count (" ++ fmtQ 1 true_count ++ ") favors conservative play. "
    else ""
  s1 ++ s2 ++ s3 ++ actionSentence action

/-- The output dictionary of `get_optimal_decision`. -/
structure Decision where
  action : Action
  expected_value : ℚ
  all_expected_values : List (Action × ℚ)
  player_value : Nat
  is_soft : Bool
  dealer_upcard_value : Nat
  bust_probability : ℚ
  true_count : ℚ
  confidence : ℚ
  reasoning : String
deriving DecidableEq, Repr

/-- `BlackjackDecisionEngine.get_optimal_decision`, generic in the action
simulator. -/
def get_optimal_decision_gen
    (sim : List Rank → Action → Rank → (Rank → ℤ) → ℚ) (d : Nat)
    (player_cards : List Rank) (dealer_upcard : Rank) (seen_cards : List Rank)
    (true_count : ℚ) : Decision :=
  let evs := calculate_expected_values_gen sim d player_cards dealer_upcard
    seen_cards true_count
  let opt := maxByEV evs
  let hv := calculate_hand_value player_cards
  let dv := if dealer_upcard = Rank.A then 11 else cardValue0 dealer_upcard
  let remaining := get_remaining_cards d seen_cards
  let total_remaining := (allRanks.map remaining).sum
  let bust_prob :=
    if (evs.map Prod.fst).contains Action.hit then
      let bust_cards :=
        (allRanks.map fun r => if 21 < hv.1 + cardValue0 r then remaining r else 0).sum
      (bust_cards : ℚ) / ((max total_remaining 1 : ℤ) : ℚ)
    else 0
  { action := decisionAction evs
    expected_value := opt.2
    all_expected_values := evs
    player_value := hv.1
    is_soft := hv.2
    dealer_upcard_value := dv
    bust_probability := bust_prob
    true_count := true_count
    confidence := decisionConfidence evs
    reasoning := generate_reasoning (decisionAction evs) evs hv.1 hv.2 dv true_count }

/-- `get_optimal_decision` with the engine's Monte-Carlo simulator:
a pure function of the game state and the two random streams. -/
def get_optimal_decision (pcss dcss : Nat → Nat → Nat) (rounds d : Nat)
    (player_cards : List Rank) (dealer_upcard : Rank) (seen_cards : List Rank)
    (true_count : ℚ) : Decision :=
  get_optimal_decision_gen
    (fun c a u rem => simulate_player_action pcss dcss rounds c a u rem)
    d player_cards dealer_upcard seen_cards true_count

/-- Shifting every EV of an association list by a constant. -/
def shiftEV (δ : ℚ) (p : Action × ℚ) : Action × ℚ := (p.1, p.2 + δ)

/-- `calculate_true_count` from `src/api/server.py`: 0.0 at or below half
a deck remaining, otherwise the running count over the remaining decks,
clamped to `[MIN_TRUE_COUNT, MAX_TRUE_COUNT] = [-20, 20]` and rounded to
one decimal. -/
def calculate_true_count (running_count decks_remaining : ℚ) : ℚ :=
  if decks_remaining ≤ 1 / 2 then 0
  else roundTo 1 (max (-20) (min 20 (running_count / decks_remaining)))

/-- The `BettingRecommendation` dictionary of `calculate_kelly_bet`. -/
structure BettingRecommendation where
  bet_amount : ℚ
  kelly_fraction : ℚ
  conservative_fraction : ℚ
  risk_level : String
  true_count : ℚ
  edge : ℚ
deriving DecidableEq, Repr

/-- `calculate_kelly_bet` from `src/api/server.py`: validation errors
become `Except.error`; a non-positive edge or true count bets the table
minimum with kelly fraction 0 and risk "low"; otherwise quarter-Kelly of
`edge / 1.3`, clipped to the table limits, with stepped risk levels. -/
def calculate_kelly_bet (bankroll true_count edge min_bet max_bet : ℚ) :
    Except String BettingRecommendation :=
  if bankroll ≤ 0 then Except.error "Bankroll must be positive"
  else if min_bet ≤ 0 ∨ max_bet ≤ 0 then
    Except.error "Minimum and maximum bet must be positive"
  else if max_bet < min_bet then Except.error "Minimum bet cannot exceed maximum bet"
  else
    let rounded_true_count := roundTo 1 true_count
    if edge ≤ 0 ∨ true_count ≤ 0 then
      Except.ok
        { bet_amount := min_bet
          kelly_fraction := 0
          conservative_fraction := 0
          risk_level := "low"
          true_count := rounded_true_count
          edge := roundTo 2 (edge * 100) }
    else
      let kelly_fraction := edge / (13 / 10)
      let conservative_kelly := kelly_fraction * (1 / 4)
      let bet_amount := bankroll * conservative_kelly
      let bet_clipped := max min_bet (min bet_amount max_bet)
      let risk_level :=
        if kelly_fraction < 1 / 100 then "low"
        else if kelly_fraction < 3 / 100 then "medium"
        else "high"
      Except.ok
        { bet_amount := roundTo 2 bet_clipped
          kelly_fraction := roundTo 4 kelly_fraction
          conservative_fraction := roundTo 4 conservative_kelly
          risk_level := risk_level
          true_count := rounded_true_count
          edge := roundTo 2 (edge * 100) }

lemma adjustAces_eq_whileAdjust (total aces : Nat) :
    adjustAces total aces = whileAdjust aces (total, aces) := by
  induction aces generalizing total with
  | zero => simp [adjustAces, whileAdjust]
  | succ a ih =>
      by_cases h : 21 < total
      · simp [adjustAces, whileAdjust, h, ih]
      · simp [adjustAces, whileAdjust, h]

/-- C1: the hand valuer agrees with the algorithm stated in the spec on
every list of cards, and on the spec's worked examples. -/
theorem hand_value_spec :
    (∀ cards : List Rank, calculate_hand_value cards = specEvaluate cards) ∧
    calculate_hand_value [A, A, r9] = (21, true) ∧
    calculate_hand_value [r10, r10] = (20, false) ∧
    calculate_hand_value [] = (0, false) := by
  refine ⟨fun cards => ?_, by decide, by decide, by decide⟩
  simp only [calculate_hand_value, specEvaluate, adjustAces_eq_whileAdjust]
  simp [Bool.and_eq_true, decide_eq_true_eq]

lemma consumeCard_apply (m : Rank → ℤ) (c r : Rank) :
    consumeCard m c r = if r = c ∧ 0 < m c then m c - 1 else m r := rfl

lemma count_cons_ne (c r : Rank) (rest : List Rank) (hrc : r ≠ c) :
    (c :: rest).count r = rest.count r := by
  simp [List.count_cons, Ne.symm hrc]

/-- Pointwise sums over the fixed 13-rank list split additively. -/
lemma sum_map_add_ranks (f g : Rank → ℤ) :
    (allRanks.map fun r => f r + g r).sum = (allRanks.map f).sum + (allRanks.map g).sum := by
  simp only [allRanks, List.map_cons, List.map_nil, List.sum_cons, List.sum_nil]
  ring

/-- Pointwise differences over the fixed 13-rank list split subtractively. -/
lemma sum_map_sub_ranks (f g : Rank → ℤ) :
    (allRanks.map fun r => f r - g r).sum = (allRanks.map f).sum - (allRanks.map g).sum := by
  simp only [allRanks, List.map_cons, List.map_nil, List.sum_cons, List.sum_nil]
  ring

lemma sum_map_ranks_congr (f g : Rank → ℤ) (h : ∀ r, f r = g r) :
    (allRanks.map f).sum = (allRanks.map g).sum := by
  have : f = g := funext h
  rw [this]

/-- Folding `consumeCard` subtracts exact per-rank counts when no rank is
over-consumed relative to the initial map. -/
lemma foldl_consumeCard_of_le (seen : List Rank) :
    ∀ init : Rank → ℤ, (∀ r, (seen.count r : ℤ) ≤ init r) →
      ∀ r, seen.foldl consumeCard init r = init r - seen.count r := by
  induction seen with
  | nil => intro init _ r; simp
  | cons c rest ih =>
      intro init hle r
      have hrest : (0 : ℤ) ≤ (rest.count c : ℤ) := Int.natCast_nonneg _
      have hcc := hle c
      rw [List.count_cons_self] at hcc
      push_cast at hcc
      have hcpos : 0 < init c := by omega
      have hstep : consumeCard init c = fun q =>
          if q = c then init c - 1 else init q := by
        funext q
        by_cases hqc : q = c
        · simp [consumeCard_apply, hqc, hcpos]
        · simp [consumeCard_apply, hqc]
      have hle2 : ∀ q, (rest.count q : ℤ) ≤ consumeCard init c q := by
        intro q
        by_cases hqc : q = c
        · subst hqc
          rw [hstep]
          simp only [if_pos rfl]
          omega
        · rw [hstep]
          simp only [if_neg hqc]
          have := hle q
          rw [count_cons_ne c q rest hqc] at this
          exact this
      have hrec := ih (consumeCard init c) hle2 r
      simp only [List.foldl_cons]
      rw [hrec]
      by_cases hrc : r = c
      · subst hrc
        rw [hstep]
        simp only [if_pos rfl, List.count_cons_self]
        push_cast
        ring
      · rw [hstep]
        simp only [if_neg hrc]
        rw [count_cons_ne c r rest hrc]

/-- The thirteen per-rank counts of a list of ranks add up to its length. -/
lemma sum_count_allRanks (l : List Rank) :
    (allRanks.map fun r => (l.count r : ℤ)).sum = l.length := by
  induction l with
  | nil => decide
  | cons c rest ih =>
      have hone : (allRanks.map fun r => if r = c then (1 : ℤ) else 0).sum = 1 := by
        cases c <;> decide
      have hsplit : (allRanks.map fun r => ((c :: rest).count r : ℤ)).sum =
          (allRanks.map fun r => (rest.count r : ℤ) + if r = c then (1 : ℤ) else 0).sum := by
        apply sum_map_ranks_congr
        intro r
        rw [List.count_cons]
        push_cast
        by_cases hrc : r = c
        · subst hrc; simp
        · simp [hrc, Ne.symm hrc]
      rw [hsplit, sum_map_add_ranks, ih, hone]
      simp [List.length_cons]

/-- C4: with no rank over-consumed, the remaining-card counts add up to
`max 0 (52*d - len(observed))`, and remaining counts are never negative
(for arbitrary observed lists, over-consumed ranks included). -/
theorem remaining_cards_spec (d : Nat) (seen : List Rank)
    (hnov : ∀ r, seen.count r ≤ 4 * d) :
    (allRanks.map fun r => get_remaining_cards d seen r).sum =
      max 0 ((52 : ℤ) * d - seen.length) ∧
    (∀ seen2 : List Rank, ∀ r, 0 ≤ get_remaining_cards d seen2 r) := by
  constructor
  · have hle : ∀ r, (seen.count r : ℤ) ≤ (standard_deck r : ℤ) * d := by
      intro r
      have := hnov r
      simp [standard_deck]
      exact_mod_cast this
    have heq := foldl_consumeCard_of_le seen _ hle
    have hsum : (allRanks.map fun r => get_remaining_cards d seen r).sum =
        (allRanks.map fun r => (standard_deck r : ℤ) * d - seen.count r).sum := by
      apply sum_map_ranks_congr
      intro r
      exact heq r
    rw [hsum, sum_map_sub_ranks, sum_count_allRanks]
    have hbase : (allRanks.map fun r => (standard_deck r : ℤ) * d).sum = 52 * d := by
      simp only [allRanks, standard_deck, List.map_cons, List.map_nil, List.sum_cons,
        List.sum_nil]
      push_cast
      ring
    rw [hbase]
    have hlen : (seen.length : ℤ) ≤ 52 * d := by
      have : (allRanks.map fun r => (seen.count r : ℤ)).sum ≤
          (allRanks.map fun r => (standard_deck r : ℤ) * d).sum := by
        apply List.sum_le_sum
        intro r hr
        have := hnov r
        simp [standard_deck]
        exact_mod_cast this
      rw [sum_count_allRanks, hbase] at this
      exact this
    omega
  · intro seen2 r
    have key : ∀ (l : List Rank) (init : Rank → ℤ), (∀ q, 0 ≤ init q) →
        ∀ q, 0 ≤ l.foldl consumeCard init q := by
      intro l
      induction l with
      | nil => intro init h q; simpa using h q
      | cons c rest ih =>
          intro init h q
          simp only [List.foldl_cons]
          apply ih
          intro q2
          by_cases hq : q2 = c ∧ 0 < init c
          · simp [consumeCard_apply, hq]
            omega
          · simp only [consumeCard_apply, if_neg hq]
            exact h q2
    exact key seen2 _ (fun q => by positivity) r

/-- Witness for C4 at `d = 1`, `observed = [A, A, K]`. -/
theorem remaining_cards_spec_witness :
    (allRanks.map fun r => get_remaining_cards 1 [A, A, K] r).sum =
      max 0 ((52 : ℤ) * 1 - ([A, A, K] : List Rank).length) ∧
    (∀ seen2 : List Rank, ∀ r, 0 ≤ get_remaining_cards 1 seen2 r) :=
  remaining_cards_spec 1 [A, A, K] (by decide)

lemma drawCard_length (c : Nat) (deck : List Rank) (h : deck ≠ []) :
    (drawCard c deck h).2.length < deck.length := by
  have hmem : (drawCard c deck h).1 ∈ deck := List.get_mem deck _ _
  have : (deck.erase (drawCard c deck h).1).length = deck.length - 1 :=
    List.length_erase_of_mem hmem
  have hpos : 0 < deck.length := List.length_pos.mpr h
  simp only [drawCard] at this ⊢
  omega

lemma dealerLoopF_lt_17 (cs : Nat → Nat) :
    ∀ (fuel : Nat) (deck : List Rank) (k : Nat) (hand : List Rank),
      deck.length ≤ fuel →
      17 ≤ (dealerLoopF fuel cs k hand deck).1 ∨ (dealerLoopF fuel cs k hand deck).2 = [] := by
  intro fuel
  induction fuel with
  | zero =>
      intro deck k hand hle
      right
      have : deck = [] := List.length_eq_zero.mp (Nat.le_zero.mp hle)
      simp [dealerLoopF, this]
  | succ fuel ih =>
      intro deck k hand hle
      rw [dealerLoopF]
      by_cases hcond : (calculate_hand_value hand).1 < 17 ∨
          ((calculate_hand_value hand).1 = 17 ∧ (calculate_hand_value hand).2)
      · simp only [if_pos hcond]
        by_cases hdeck : deck = []
        · simp only [dif_pos hdeck]
          right
          exact hdeck
        · simp only [dif_neg hdeck]
          by_cases hbust : 21 < (calculate_hand_value
              (hand ++ [(drawCard (cs k) deck hdeck).1])).1
          · simp only [if_pos hbust]
            left
            omega
          · simp only [if_neg hbust]
            have hlen := drawCard_length (cs k) deck hdeck
            exact ih _ (k + 1) (hand ++ [(drawCard (cs k) deck hdeck).1]) (by omega)
      · simp only [if_neg hcond]
        left
        omega

lemma dealerLoop_lt_17 (cs : Nat → Nat) (k : Nat) (hand deck : List Rank) :
    17 ≤ (dealerLoop cs k hand deck).1 ∨ (dealerLoop cs k hand deck).2 = [] :=
  dealerLoopF_lt_17 cs deck.length deck k hand le_rfl

/-- C3: the dealer loop hits exactly while the total is below 17 or a soft
17; a returned total below 17 forces an exhausted pool, both for the loop
itself and for `simulate_dealer_hand` as a whole (so with a pool that is
never exhausted, the final total is at least 17). -/
theorem dealer_stand_spec :
    (∀ (cs : Nat → Nat) (k : Nat) (hand deck : List Rank),
      (dealerLoop cs k hand deck).1 < 17 → (dealerLoop cs k hand deck).2 = []) ∧
    (∀ (cs : Nat → Nat) (dealer_upcard : Rank) (remaining_cards : Rank → ℤ),
      simulate_dealer_hand cs dealer_upcard remaining_cards < 17 →
        (dealerLoop cs 0 [dealer_upcard] (flattenDeck remaining_cards)).2 = []) := by
  constructor
  · intro cs k hand deck hlt
    rcases dealerLoop_lt_17 cs k hand deck with h | h
    · omega
    · exact h
  · intro cs dealer_upcard remaining_cards hlt
    by_cases hdeck : flattenDeck remaining_cards = []
    · rw [hdeck]
      simp [dealerLoop, dealerLoopF]
    · have : simulate_dealer_hand cs dealer_upcard remaining_cards =
          (dealerLoop cs 0 [dealer_upcard] (flattenDeck remaining_cards)).1 := by
        simp [simulate_dealer_hand, hdeck]
      rw [this] at hlt
      rcases dealerLoop_lt_17 cs 0 [dealer_upcard] (flattenDeck remaining_cards) with h | h
      · omega
      · exact h

/-- Witness for C3: a one-card pool that exhausts below 17, checked
concretely through the theorem. -/
theorem dealer_stand_spec_witness :
    (dealerLoop (fun _ => 0) 0 [r2] [r2]).2 = [] ∧
    (dealerLoop (fun _ => 0) 0 [r5]
      (flattenDeck (fun r => if r = r2 then 1 else 0))).2 = [] := by
  constructor
  · exact dealer_stand_spec.1 (fun _ => 0) 0 [r2] [r2] (by decide)
  · exact dealer_stand_spec.2 (fun _ => 0) r5 (fun r => if r = r2 then 1 else 0)
      (by decide)

lemma simLoop_go (outs : List (Option ℚ)) :
    ∀ w t, outs.foldl
        (fun acc o => match o with
          | none => acc
          | some x => (acc.1 + x, acc.2 + 1))
        (w, t) =
      (w + (outs.filterMap id).sum, t + (outs.filterMap id).length) := by
  induction outs with
  | nil => intro w t; simp
  | cons o rest ih =>
      intro w t
      cases o with
      | none => simpa using ih w t
      | some x =>
          simp only [List.foldl_cons]
          rw [ih]
          simp only [List.filterMap_cons, id_eq, List.sum_cons, List.length_cons,
            Prod.mk.injEq]
          exact ⟨by ring, by omega⟩

lemma simLoop_eq (outs : List (Option ℚ)) :
    simLoop outs = ((outs.filterMap id).sum, (outs.filterMap id).length) := by
  unfold simLoop
  rw [simLoop_go]
  simp

/-- C7: the action simulator returns the sum of completed-trial net
returns divided by the completed-trial count (denominator forced to 1 when
no trial completes, so never zero), and a trial is skipped — contributing
to neither numerator nor denominator — exactly when it starts on an
exhausted deck. -/
theorem player_action_average_spec (pcss dcss : Nat → Nat → Nat) (rounds : Nat)
    (player_cards : List Rank) (act : Action) (dealer_upcard : Rank)
    (remaining_cards : Rank → ℤ) :
    simulate_player_action pcss dcss rounds player_cards act dealer_upcard remaining_cards =
      (completedTrials pcss dcss rounds player_cards act dealer_upcard remaining_cards).sum /
      ((max (completedTrials pcss dcss rounds player_cards act dealer_upcard
        remaining_cards).length 1 : ℕ) : ℚ) ∧
    0 < max (completedTrials pcss dcss rounds player_cards act dealer_upcard
        remaining_cards).length 1 ∧
    (∀ pcs dcs : Nat → Nat,
      playerTrial pcs dcs player_cards act dealer_upcard remaining_cards = none ↔
        flattenDeck remaining_cards = []) ∧
    ((completedTrials pcss dcss rounds player_cards act dealer_upcard
        remaining_cards).length = 0 →
      simulate_player_action pcss dcss rounds player_cards act dealer_upcard remaining_cards =
        (completedTrials pcss dcss rounds player_cards act dealer_upcard
          remaining_cards).sum / 1) := by
  have hmain : simulate_player_action pcss dcss rounds player_cards act dealer_upcard
      remaining_cards =
      (completedTrials pcss dcss rounds player_cards act dealer_upcard remaining_cards).sum /
      ((max (completedTrials pcss dcss rounds player_cards act dealer_upcard
        remaining_cards).length 1 : ℕ) : ℚ) := by
    simp only [simulate_player_action, completedTrials, simLoop_eq]
  refine ⟨hmain, ?_, ?_, ?_⟩
  · exact Nat.lt_of_lt_of_le Nat.zero_lt_one (Nat.le_max_right _ 1)
  · intro pcs dcs
    by_cases hdeck : flattenDeck remaining_cards = []
    · simp [playerTrial, hdeck]
    · simp [playerTrial, hdeck]
  · intro hzero
    rw [hmain, hzero]
    norm_num

/-- Witness for C7: two rounds on an exhausted shoe complete zero trials
and still divide by 1. -/
theorem player_action_average_spec_witness :
    simulate_player_action (fun _ _ => 0) (fun _ _ => 0) 2 [r10, r10] Action.stand r5
        (fun _ => 0) =
      (completedTrials (fun _ _ => 0) (fun _ _ => 0) 2 [r10, r10] Action.stand r5
        (fun _ => 0)).sum / 1 :=
  (player_action_average_spec (fun _ _ => 0) (fun _ _ => 0) 2 [r10, r10] Action.stand r5
    (fun _ => 0)).2.2.2 (by decide)

lemma foldl_best_shift (δ : ℚ) (ps : List (Action × ℚ)) :
    ∀ p, (ps.map (shiftEV δ)).foldl (fun best x => if best.2 < x.2 then x else best)
        (shiftEV δ p) =
      shiftEV δ (ps.foldl (fun best x => if best.2 < x.2 then x else best) p) := by
  induction ps with
  | nil => intro p; rfl
  | cons q ps ih =>
      intro p
      simp only [List.map_cons, List.foldl_cons]
      have hstep : (if (shiftEV δ p).2 < (shiftEV δ q).2 then shiftEV δ q else shiftEV δ p) =
          shiftEV δ (if p.2 < q.2 then q else p) := by
        by_cases h : p.2 < q.2
        · simp [shiftEV, h]
        · simp [shiftEV, h]
      rw [hstep, ih]

lemma maxByEV_shift (δ : ℚ) (l : List (Action × ℚ)) (h : l ≠ []) :
    maxByEV (l.map (shiftEV δ)) = shiftEV δ (maxByEV l) := by
  cases l with
  | nil => exact absurd rfl h
  | cons p ps =>
      simp only [List.map_cons, maxByEV]
      exact foldl_best_shift δ ps p

lemma foldl_max_shift (δ : ℚ) (xs : List ℚ) :
    ∀ x, (xs.map (· + δ)).foldl max (x + δ) = xs.foldl max x + δ := by
  induction xs with
  | nil => intro x; rfl
  | cons y ys ih =>
      intro x
      simp only [List.map_cons, List.foldl_cons]
      rw [max_add_add_right, ih]

lemma listMaxD_shift (δ : ℚ) (xs : List ℚ) (dflt : ℚ) :
    listMaxD (xs.map (· + δ)) (dflt + δ) = listMaxD xs dflt + δ := by
  cases xs with
  | nil => rfl
  | cons x xs =>
      simp only [List.map_cons, listMaxD]
      exact foldl_max_shift δ xs x

lemma filter_ne_shift (δ : ℚ) (l : List (Action × ℚ)) (a : Action) :
    (l.map (shiftEV δ)).filter (fun p => p.1 != a) =
      (l.filter fun p => p.1 != a).map (shiftEV δ) := by
  induction l with
  | nil => rfl
  | cons p ps ih =>
      simp only [List.map_cons, List.filter_cons]
      by_cases hb : (p.1 != a) = true
      · simp only [shiftEV, hb, if_pos]
        rw [List.map_cons]
        exact congrArg _ ih
      · simp only [shiftEV, hb, if_neg]
        simp only [Bool.not_eq_true] at hb
        simp [hb, ih]

lemma map_snd_shift (δ : ℚ) (l : List (Action × ℚ)) :
    (l.map (shiftEV δ)).map Prod.snd = (l.map Prod.snd).map (· + δ) := by
  simp only [List.map_map]
  rfl

lemma decisionAction_shift (δ : ℚ) (l : List (Action × ℚ)) (h : l ≠ []) :
    decisionAction (l.map (shiftEV δ)) = decisionAction l := by
  unfold decisionAction
  rw [maxByEV_shift δ l h]
  rfl

lemma decisionConfidence_shift (δ : ℚ) (l : List (Action × ℚ)) (h : l ≠ []) :
    decisionConfidence (l.map (shiftEV δ)) = decisionConfidence l := by
  simp only [decisionConfidence]
  rw [maxByEV_shift δ l h]
  show |(maxByEV l).2 + δ -
      listMaxD (((l.map (shiftEV δ)).filter fun p => p.1 != (maxByEV l).1).map Prod.snd)
        ((maxByEV l).2 + δ)| = _
  rw [filter_ne_shift, map_snd_shift, listMaxD_shift]
  congr 1
  ring

lemma cev_gen_shift (sim : List Rank → Action → Rank → (Rank → ℤ) → ℚ) (d : Nat)
    (cards : List Rank) (up : Rank) (seen : List Rank) (tc tc2 : ℚ)
    (h : ¬ 21 < (calculate_hand_value cards).1) :
    calculate_expected_values_gen sim d cards up seen tc2 =
      (calculate_expected_values_gen sim d cards up seen tc).map
        (shiftEV (tc2 * (5 / 1000) - tc * (5 / 1000))) := by
  simp only [calculate_expected_values_gen, if_neg h, List.map_map]
  have : (fun a => (a, sim cards a up (get_remaining_cards d seen) + tc2 * (5 / 1000))) =
      (shiftEV (tc2 * (5 / 1000) - tc * (5 / 1000)) ∘
        fun a => (a, sim cards a up (get_remaining_cards d seen) + tc * (5 / 1000))) := by
    funext a
    simp only [Function.comp, shiftEV]
    rw [Prod.mk.injEq]
    exact ⟨rfl, by ring⟩
  rw [this]

lemma cev_gen_ne_nil (sim : List Rank → Action → Rank → (Rank → ℤ) → ℚ) (d : Nat)
    (cards : List Rank) (up : Rank) (seen : List Rank) (tc : ℚ) :
    calculate_expected_values_gen sim d cards up seen tc ≠ [] := by
  unfold calculate_expected_values_gen legalActions
  by_cases h : 21 < (calculate_hand_value cards).1
  · simp [h]
  · by_cases h21 : (calculate_hand_value cards).1 = 21
    · simp [h, h21]
    · simp [h, h21]

/-- C2: a 21 total restricts the legal-action list to stand alone; a
busted total short-circuits to stand at EV −1.0 with no simulation at all
(the result is the same for every action simulator `sim`, so the
simulator is never consulted). -/
theorem ev_terminal_spec (d : Nat) (cards : List Rank) (up : Rank)
    (seen : List Rank) (tc : ℚ) :
    ((calculate_hand_value cards).1 = 21 →
      ∀ sim, (calculate_expected_values_gen sim d cards up seen tc).map Prod.fst =
        [Action.stand]) ∧
    (21 < (calculate_hand_value cards).1 →
      ∀ sim, calculate_expected_values_gen sim d cards up seen tc = [(Action.stand, -1)] ∧
        (get_optimal_decision_gen sim d cards up seen tc).action = Action.stand ∧
        (get_optimal_decision_gen sim d cards up seen tc).expected_value = -1) := by
  constructor
  · intro h21 sim
    have hnot : ¬ 21 < (calculate_hand_value cards).1 := by omega
    simp [calculate_expected_values_gen, hnot, legalActions, h21]
  · intro hbust sim
    have hevs : calculate_expected_values_gen sim d cards up seen tc =
        [(Action.stand, -1)] := by
      simp [calculate_expected_values_gen, hbust]
    refine ⟨hevs, ?_, ?_⟩
    · simp [get_optimal_decision_gen, decisionAction, hevs, maxByEV]
    · simp [get_optimal_decision_gen, hevs, maxByEV]

/-- Witness for C2: a 21 hand (A + K) and a busted hand (10 + 10 + 5),
under the constant-zero simulator. -/
theorem ev_terminal_spec_witness :
    ((calculate_expected_values_gen (fun _ _ _ _ => 0) 6 [A, K] r5 [] 0).map Prod.fst =
      [Action.stand]) ∧
    (calculate_expected_values_gen (fun _ _ _ _ => 0) 6 [r10, r10, r5] r7 [] 0 =
      [(Action.stand, -1)] ∧
    (get_optimal_decision_gen (fun _ _ _ _ => 0) 6 [r10, r10, r5] r7 [] 0).action =
      Action.stand ∧
    (get_optimal_decision_gen (fun _ _ _ _ => 0) 6 [r10, r10, r5] r7 [] 0).expected_value =
      -1) :=
  ⟨(ev_terminal_spec 6 [A, K] r5 [] 0).1 (by decide) (fun _ _ _ _ => 0),
   (ev_terminal_spec 6 [r10, r10, r5] r7 [] 0).2 (by decide) (fun _ _ _ _ => 0)⟩

/-- C8: the decision function is a pure function of the game state and
the random streams: identical inputs and identical streams give identical
output records (all ten fields). -/
theorem decision_deterministic_spec (pcss dcss pcss2 dcss2 : Nat → Nat → Nat)
    (rounds d : Nat) (cards : List Rank) (up : Rank) (seen : List Rank) (tc : ℚ)
    (hp : pcss = pcss2) (hd : dcss = dcss2) :
    get_optimal_decision pcss dcss rounds d cards up seen tc =
      get_optimal_decision pcss2 dcss2 rounds d cards up seen tc := by
  subst hp
  subst hd
  rfl

/-- Witness for C8 at a concrete state and concrete (equal) streams. -/
theorem decision_deterministic_spec_witness :
    get_optimal_decision (fun _ _ => 0) (fun _ _ => 1) 3 1 [r8, r8] r10 [] 0 =
      get_optimal_decision (fun _ _ => 0) (fun _ _ => 1) 3 1 [r8, r8] r10 [] 0 :=
  decision_deterministic_spec (fun _ _ => 0) (fun _ _ => 1) (fun _ _ => 0) (fun _ _ => 1)
    3 1 [r8, r8] r10 [] 0 rfl rfl

/-- C9: the true-count adjustment shifts every action's EV by the same
amount, so two calls differing only in `true_count` (same streams, hence
the same simulated EVs) return the same action and the same confidence. -/
theorem count_invariance_spec (pcss dcss : Nat → Nat → Nat) (rounds d : Nat)
    (cards : List Rank) (up : Rank) (seen : List Rank) (tc tc2 : ℚ) :
    (get_optimal_decision pcss dcss rounds d cards up seen tc).action =
      (get_optimal_decision pcss dcss rounds d cards up seen tc2).action ∧
    (get_optimal_decision pcss dcss rounds d cards up seen tc).confidence =
      (get_optimal_decision pcss dcss rounds d cards up seen tc2).confidence := by
  by_cases hbust : 21 < (calculate_hand_value cards).1
  · have h1 : calculate_expected_values_gen
        (fun c a u rem => simulate_player_action pcss dcss rounds c a u rem)
        d cards up seen tc = [(Action.stand, -1)] := by
      simp [calculate_expected_values_gen, hbust]
    have h2 : calculate_expected_values_gen
        (fun c a u rem => simulate_player_action pcss dcss rounds c a u rem)
        d cards up seen tc2 = [(Action.stand, -1)] := by
      simp [calculate_expected_values_gen, hbust]
    constructor
    · show decisionAction _ = decisionAction _
      rw [h1, h2]
    · show decisionConfidence _ = decisionConfidence _
      rw [h1, h2]
  · have hs := cev_gen_shift
      (fun c a u rem => simulate_player_action pcss dcss rounds c a u rem)
      d cards up seen tc tc2 hbust
    have hne := cev_gen_ne_nil
      (fun c a u rem => simulate_player_action pcss dcss rounds c a u rem)
      d cards up seen tc
    constructor
    · show decisionAction _ = decisionAction _
      rw [hs, decisionAction_shift _ _ hne]
    · show decisionConfidence _ = decisionConfidence _
      rw [hs, decisionConfidence_shift _ _ hne]

/-- C10: split legality and split simulation disagree on what a pair is.
Any two-card hand of equal rank values but distinct ranks makes split a
legal action, yet every split trial on it behaves exactly like a stand
trial: the hand is left unmodified, no card is drawn, and the bet
multiplier stays 1. -/
theorem split_pair_test_spec (c0 c1 : Rank) (h1 : cardValue0 c0 = cardValue0 c1)
    (h2 : c0 ≠ c1) :
    (∀ (sim : List Rank → Action → Rank → (Rank → ℤ) → ℚ) (d : Nat) (up : Rank)
      (seen : List Rank) (tc : ℚ),
      Action.split ∈ (calculate_expected_values_gen sim d [c0, c1] up seen tc).map
        Prod.fst) ∧
    (∀ (pcs dcs : Nat → Nat) (up : Rank) (remaining : Rank → ℤ),
      playerTrial pcs dcs [c0, c1] Action.split up remaining =
        playerTrial pcs dcs [c0, c1] Action.stand up remaining) := by
  have hpv : (calculate_hand_value [c0, c1]).1 = 20 := by
    have key : ∀ a b : Rank, cardValue0 a = cardValue0 b → a ≠ b →
        (calculate_hand_value [a, b]).1 = 20 := by decide
    exact key c0 c1 h1 h2
  constructor
  · intro sim d up seen tc
    have hnot : ¬ 21 < (calculate_hand_value [c0, c1]).1 := by omega
    have h21 : ¬ (calculate_hand_value [c0, c1]).1 = 21 := by omega
    simp [calculate_expected_values_gen, hnot, legalActions, h21, h1]
  · intro pcs dcs up remaining
    by_cases hdeck : flattenDeck remaining = []
    · simp [playerTrial, hdeck]
    · simp only [playerTrial, hdeck, if_neg]
      have : actionPhase pcs [c0, c1] Action.split (flattenDeck remaining) =
          actionPhase pcs [c0, c1] Action.stand (flattenDeck remaining) := by
        simp [actionPhase, h2]
      rw [this]

/-- Witness for C10 at the value-equal, rank-unequal pair K/Q. -/
theorem split_pair_test_spec_witness :
    Action.split ∈ (calculate_expected_values_gen (fun _ _ _ _ => 0) 6 [K, Q] r5 [] 0).map
      Prod.fst ∧
    playerTrial (fun _ => 0) (fun _ => 0) [K, Q] Action.split r5
        (get_remaining_cards 1 []) =
      playerTrial (fun _ => 0) (fun _ => 0) [K, Q] Action.stand r5
        (get_remaining_cards 1 []) :=
  ⟨(split_pair_test_spec K Q (by decide) (by decide)).1 (fun _ _ _ _ => 0) 6 r5 [] 0,
   (split_pair_test_spec K Q (by decide) (by decide)).2 (fun _ => 0) (fun _ => 0) r5
     (get_remaining_cards 1 [])⟩

/-- C5: the true-count computation returns 0.0 at `decks_remaining ≤ 0.5`
and otherwise the clamped, 1-decimal-rounded quotient; in particular
`trueCount(3, 3.0) = 1.0` and `trueCount(x, 0.3) = 0.0` for every x. -/
theorem true_count_spec :
    (∀ r d : ℚ, d ≤ 1 / 2 → calculate_true_count r d = 0) ∧
    (∀ r d : ℚ, 1 / 2 < d →
      calculate_true_count r d = roundTo 1 (max (-20) (min 20 (r / d)))) ∧
    calculate_true_count 3 3 = 1 ∧
    (∀ x : ℚ, calculate_true_count x (3 / 10) = 0) := by
  refine ⟨?_, ?_, ?_, ?_⟩
  · intro r d h
    simp only [calculate_true_count]
    rw [if_pos h]
  · intro r d h
    simp only [calculate_true_count]
    rw [if_neg (not_le.mpr h)]
  · have h3 : ¬ (3 : ℚ) ≤ 1 / 2 := by norm_num
    simp only [calculate_true_count, if_neg h3]
    norm_num [roundTo, roundHalfEven]
  · intro x
    have h3 : (3 / 10 : ℚ) ≤ 1 / 2 := by norm_num
    simp only [calculate_true_count]
    rw [if_pos h3]

/-- Witness for C5: the floor case at exactly half a deck, the rounding
case at one deck, and the below-floor example. -/
theorem true_count_spec_witness :
    calculate_true_count 5 (1 / 2) = 0 ∧
    calculate_true_count 2 1 = roundTo 1 (max (-20) (min 20 ((2 : ℚ) / 1))) ∧
    calculate_true_count 7 (3 / 10) = 0 :=
  ⟨true_count_spec.1 5 (1 / 2) (by norm_num),
   true_count_spec.2.1 2 1 (by norm_num),
   true_count_spec.2.2.2 7⟩

/-- C6: with a positive bankroll and valid table limits, a non-positive
edge or non-positive true count always yields the minimum bet, kelly
fraction 0 and risk level "low", whatever the bankroll. -/
theorem kelly_min_bet_spec (bankroll tc edge min_bet max_bet : ℚ)
    (hb : 0 < bankroll) (hmin : 0 < min_bet) (hle : min_bet ≤ max_bet)
    (hneg : edge ≤ 0 ∨ tc ≤ 0) :
    calculate_kelly_bet bankroll tc edge min_bet max_bet =
      Except.ok
        { bet_amount := min_bet
          kelly_fraction := 0
          conservative_fraction := 0
          risk_level := "low"
          true_count := roundTo 1 tc
          edge := roundTo 2 (edge * 100) } := by
  have hmax : 0 < max_bet := lt_of_lt_of_le hmin hle
  simp only [calculate_kelly_bet]
  rw [if_neg (not_le.mpr hb), if_neg ?_, if_neg (not_lt.mpr hle), if_pos hneg]
  rintro (h | h) <;> linarith

/-- Witness for C6: a negative true count with a positive edge still bets
the table minimum. -/
theorem kelly_min_bet_spec_witness :
    calculate_kelly_bet 1000 (-1) (2 / 100) 10 500 =
      Except.ok
        { bet_amount := 10
          kelly_fraction := 0
          conservative_fraction := 0
          risk_level := "low"
          true_count := roundTo 1 (-1)
          edge := roundTo 2 ((2 / 100) * 100) } :=
  kelly_min_bet_spec 1000 (-1) (2 / 100) 10 500 (by norm_num) (by norm_num)
    (by norm_num) (Or.inr (by norm_num))

end Blackjack
